import Mathlib

/-!
Verification development for the Document-extractor backend.

The TypeScript sources under `backend/src` are embedded shallowly:
JavaScript runtime values produced by `JSON.parse` become the inductive
`Json`; strings become `List Char` (JavaScript strings are UTF-16 code-unit
sequences; every value that occurs here is a sequence of Unicode scalar
values, so `List Char` is faithful); thrown errors become `Except` values.
Each definition mirrors one function of the source and keeps its name.
-/

namespace DocExtractor

/-- Model of the JavaScript values that `JSON.parse` can produce.
Numbers are modelled as integers: no claim of this development depends on
fractional or exponent literals, whose IEEE-754 value has no exact
embedding here.  Object fields are kept in written order; `JSON.parse`
collapses a repeated key to its last occurrence, which the lookup below
reproduces. -/
inductive Json where
  | null : Json
  | bool (b : Bool) : Json
  | num (n : Int) : Json
  | str (s : List Char) : Json
  | arr (elems : List Json) : Json
  | obj (fields : List (List Char × Json)) : Json

-- Equality of `Except` results is decided componentwise; the library
-- provides no such instance, and the concrete evaluations below use it.
instance {ε α : Type _} [DecidableEq ε] [DecidableEq α] : DecidableEq (Except ε α) :=
  fun a b =>
    match a, b with
    | .ok x, .ok y => if h : x = y then .isTrue (by rw [h]) else .isFalse (by simp [h])
    | .error x, .error y => if h : x = y then .isTrue (by rw [h]) else .isFalse (by simp [h])
    | .ok _, .error _ => .isFalse fun h => Except.noConfusion h
    | .error _, .ok _ => .isFalse fun h => Except.noConfusion h

/-- The whitespace set of JavaScript `String.prototype.trim` (ECMA-262
WhiteSpace and LineTerminator).  The rare Unicode space-separator code
points beyond U+00A0 are omitted; no string in this development contains
them. -/
def isJsWs (c : Char) : Bool :=
  c == ' ' || c == '\t' || c == '\n' || c == '\r' ||
  c == '\x0b' || c == '\x0c' || c == ' ' || c == '﻿'

/-- Model of JavaScript `String.prototype.trim`: drop leading and trailing
whitespace. -/
def trimChars (l : List Char) : List Char :=
  ((l.dropWhile isJsWs).reverse.dropWhile isJsWs).reverse

-- Model of JavaScript `String(value)`.  Array elements join with `","`,
-- a `null` element joining as the empty string.
mutual

/-- Model of JavaScript `String(value)`. -/
def jsToString : Json → List Char
  | .null => "null".data
  | .bool true => "true".data
  | .bool false => "false".data
  | .num n => (toString n).data
  | .str s => s
  | .arr es => jsArrString es
  | .obj _ => "[object Object]".data

/-- `Array.prototype.toString`, i.e. `join(",")`, with `null` elements
contributing the empty string. -/
def jsArrString : List Json → List Char
  | [] => []
  | e :: rest =>
    let s := match e with
      | .null => []
      | j => jsToString j
    match rest with
    | [] => s
    | _ :: _ => s ++ ',' :: jsArrString rest

end

/-- Property lookup on the field list of a parsed JSON object.  A repeated
key denotes its last occurrence, as `JSON.parse` leaves only that one. -/
def lookupLast : List (List Char × Json) → List Char → Option Json
  | [], _ => none
  | (k', v) :: rest, k =>
    match lookupLast rest k with
    | some w => some w
    | none => if k' = k then some v else none

/-- JavaScript property access `value[key]` for parsed JSON values: only an
object carries named properties; on every other value (including arrays,
whose properties are numeric indices) a name reads as `undefined`. -/
def jsGet : Json → List Char → Option Json
  | .obj kvs, k => lookupLast kvs k
  | _, _ => none

/-- The test `entity && typeof entity === "object"` of the source: `null`
is falsy, and of the remaining values exactly objects and arrays have
`typeof` equal to `"object"`. -/
def isObjectLike : Json → Bool
  | .obj _ => true
  | .arr _ => true
  | _ => false

/-! ## services/claude.ts — entity shape and normalization -/

/-- The record shape built by `validateEntities` (claude.ts lines 147-155):
exactly these seven properties.  The declared TypeScript interface
`ExtractedEntity` (types/index.ts) additionally lists `technology_stack`,
which the validator never writes; the runtime object has only these. -/
structure ExtractedEntity where
  full_name : Option (List Char)
  email : Option (List Char)
  phone_number : Option (List Char)
  address : Option (List Char)
  organisation : Option (List Char)
  role_title : Option (List Char)
  comments : Option (List Char)
deriving DecidableEq, Repr

/-- `normalizeString` (claude.ts lines 162-171).  The argument is the raw
property value: `none` is JavaScript `undefined` (property absent), and
`some j` a present JSON value.  `null`/`undefined` give `null`; a string
gives its trim, or `null` when the trim is empty; anything else gives
`String(value)`. -/
def normalizeString : Option Json → Option (List Char)
  | none => none
  | some .null => none
  | some (.str s) =>
    let trimmed := trimChars s
    if trimmed.length > 0 then some trimmed else none
  | some v => some (jsToString v)

/-- `createEmptyEntity` (claude.ts lines 176-186): every field null. -/
def createEmptyEntity : ExtractedEntity :=
  { full_name := none, email := none, phone_number := none, address := none
    organisation := none, role_title := none, comments := none }

/-- The body of the `map` in `validateEntities` (claude.ts lines 139-156)
for a single array element. -/
def validateEntity (entity : Json) : ExtractedEntity :=
  if isObjectLike entity then
    { full_name := normalizeString (jsGet entity "full_name".data)
      email := normalizeString (jsGet entity "email".data)
      phone_number := normalizeString (jsGet entity "phone_number".data)
      address := normalizeString (jsGet entity "address".data)
      organisation := normalizeString (jsGet entity "organisation".data)
      role_title := normalizeString (jsGet entity "role_title".data)
      comments := normalizeString (jsGet entity "comments".data) }
  else createEmptyEntity

/-- `validateEntities` (claude.ts lines 138-157): normalize every element
independently, in order.  The index is used by the source only for a
console warning. -/
def validateEntities (entities : List Json) : List ExtractedEntity :=
  entities.map validateEntity

/-! ## Model of `JSON.parse`

`parseExtractionResponse` calls the runtime's `JSON.parse`; the executable
model below implements RFC 8259 parsing over `List Char`, with two
documented simplifications: numeric literals are read as integers
(fractional and exponent forms are refused, and the leading-zero
prohibition is not checked), and a `\u` escape denoting a UTF-16 surrogate
half is out of scope.  No input appearing in this development touches
either corner. -/

/-- The insignificant-whitespace set of JSON itself (narrower than the
JavaScript `trim` set). -/
def isJsonWs (c : Char) : Bool :=
  c == ' ' || c == '\t' || c == '\n' || c == '\r'

/-- Skip insignificant whitespace. -/
def skipWs (l : List Char) : List Char := l.dropWhile isJsonWs

/-- Value of one hexadecimal digit. -/
def hexVal (c : Char) : Option Nat :=
  if '0' ≤ c ∧ c ≤ '9' then some (c.toNat - 48)
  else if 'a' ≤ c ∧ c ≤ 'f' then some (c.toNat - 87)
  else if 'A' ≤ c ∧ c ≤ 'F' then some (c.toNat - 55)
  else none

/-- The short escapes of a JSON string body. -/
def escDecode : Char → Option Char
  | '"' => some '"'
  | '\\' => some '\\'
  | '/' => some '/'
  | 'b' => some '\x08'
  | 'f' => some '\x0c'
  | 'n' => some '\n'
  | 'r' => some '\r'
  | 't' => some '\t'
  | _ => none

/-- Read a JSON string body (the opening quote already consumed), returning
the decoded characters and the remaining input after the closing quote.
The fuel argument only bounds the recursion; every call below supplies at
least one unit more than the input length, and each step consumes at
least one character, so the zero-fuel branch is never reached. -/
def readStr : Nat → List Char → Option (List Char × List Char)
  | 0, _ => none
  | fuel + 1, l =>
    match l with
    | [] => none
    | c :: rest =>
      if c = '"' then some ([], rest)
      else if c = '\\' then
        match rest with
        | [] => none
        | e :: r2 =>
          if e = 'u' then
            match r2 with
            | h1 :: h2 :: h3 :: h4 :: r6 =>
              match hexVal h1, hexVal h2, hexVal h3, hexVal h4 with
              | some d1, some d2, some d3, some d4 =>
                (readStr fuel r6).map fun p =>
                  (Char.ofNat (4096*d1 + 256*d2 + 16*d3 + d4) :: p.1, p.2)
              | _, _, _, _ => none
            | _ => none
          else
            match escDecode e with
            | some d => (readStr fuel r2).map fun p => (d :: p.1, p.2)
            | none => none
      else if 32 ≤ c.toNat then (readStr fuel rest).map fun p => (c :: p.1, p.2)
      else none

/-- Digits of an unsigned integer literal to its value. -/
def digitsToNat (ds : List Char) : Nat :=
  ds.foldl (fun acc c => 10 * acc + (c.toNat - 48)) 0

/-- Read an integer numeric literal starting at the given character. -/
def readNum (c : Char) (rest : List Char) : Option (Json × List Char) :=
  let (neg, l) := if c = '-' then (true, rest) else (false, c :: rest)
  let ds := l.takeWhile Char.isDigit
  if ds = [] then none
  else
    let n : Int := Int.ofNat (digitsToNat ds)
    some (.num (if neg then -n else n), l.dropWhile Char.isDigit)

/-- The pending work of the recursive-descent reading of one value: a
value itself, the members of an object (positioned at the first character
of a key), or the elements of an array (positioned at the first element).
A single type keeps the recursion structural on the fuel, which lets every
concrete run reduce definitionally. -/
inductive ParseTask where
  | val (l : List Char)
  | members (l : List Char) (acc : List (List Char × Json))
  | elems (l : List Char) (acc : List Json)

/-- One parsing engine for values, object members and array elements.  The
fuel only bounds the recursion; `jsonParse` supplies more than any input
can consume. -/
def parseStep : Nat → ParseTask → Option (Json × List Char)
  | 0, _ => none
  | fuel + 1, .val l =>
    match skipWs l with
    | [] => none
    | c :: rest =>
      if c = '{' then
        match skipWs rest with
        | '}' :: r => some (.obj [], r)
        | l2 => parseStep fuel (.members l2 [])
      else if c = '[' then
        match skipWs rest with
        | ']' :: r => some (.arr [], r)
        | l2 => parseStep fuel (.elems l2 [])
      else if c = '"' then
        (readStr (rest.length + 1) rest).map fun p => (.str p.1, p.2)
      else if c = 't' then
        if "rue".data.isPrefixOf rest then some (.bool true, rest.drop 3) else none
      else if c = 'f' then
        if "alse".data.isPrefixOf rest then some (.bool false, rest.drop 4) else none
      else if c = 'n' then
        if "ull".data.isPrefixOf rest then some (.null, rest.drop 3) else none
      else if c = '-' ∨ c.isDigit then readNum c rest
      else none
  | fuel + 1, .members l acc =>
    match l with
    | '"' :: lk =>
      match readStr (lk.length + 1) lk with
      | some (k, r1) =>
        match skipWs r1 with
        | ':' :: r2 =>
          match parseStep fuel (.val r2) with
          | some (v, r3) =>
            match skipWs r3 with
            | ',' :: r4 => parseStep fuel (.members (skipWs r4) (acc ++ [(k, v)]))
            | '}' :: r4 => some (.obj (acc ++ [(k, v)]), r4)
            | _ => none
          | none => none
        | _ => none
      | none => none
    | _ => none
  | fuel + 1, .elems l acc =>
    match parseStep fuel (.val l) with
    | some (v, r) =>
      match skipWs r with
      | ',' :: r2 => parseStep fuel (.elems r2 (acc ++ [v]))
      | ']' :: r2 => some (.arr (acc ++ [v]), r2)
      | _ => none
    | none => none

/-- Parse one JSON value, returning it and the unconsumed remainder. -/
def parseVal (fuel : Nat) (l : List Char) : Option (Json × List Char) :=
  parseStep fuel (.val l)

/-- Model of `JSON.parse`: one complete value, possibly surrounded by
insignificant whitespace. -/
def jsonParse (l : List Char) : Option Json :=
  match parseVal (l.length + 1) l with
  | some (v, r) => if skipWs r = [] then some v else none
  | none => none

/-! ## services/claude.ts — parseExtractionResponse -/

/-- The three `throw new Error(...)` sites of `parseExtractionResponse`
(claude.ts lines 115, 120, 129).  The spec's error taxonomy calls all
three `MalformedResponse`; `invalidJson` carries the 200-character excerpt
of the raw response that the source embeds in the message. -/
inductive ParseErr where
  | invalidJson (excerpt : List Char)
  | notAnObject
  | missingEntities
deriving DecidableEq, Repr

/-- The message string of each error, as thrown by the source. -/
def ParseErr.message : ParseErr → List Char
  | .invalidJson excerpt => "Claude returned invalid JSON. Response: ".data ++ excerpt
  | .notAnObject => "Claude response is not an object".data
  | .missingEntities => "Claude response missing 'entities' array".data

/-- `l.take (l.length - n)`: JavaScript `slice(0, -n)` for `n ≤ length`. -/
def dropRight (l : List Char) (n : Nat) : List Char := l.take (l.length - n)

/-- Lines 99-103 of claude.ts: drop an opening ```` ```json ```` (7
characters) or a bare ```` ``` ```` (3 characters) when present. -/
def stripOpenFence (j0 : List Char) : List Char :=
  if "```json".data.isPrefixOf j0 then j0.drop 7
  else if "```".data.isPrefixOf j0 then j0.drop 3
  else j0

/-- Lines 104-106 of claude.ts: drop a closing ```` ``` ```` when
present (`slice(0, -3)`). -/
def stripCloseFence (j1 : List Char) : List Char :=
  if "```".data.isSuffixOf j1 then dropRight j1 3 else j1

/-- The fence-stripping preamble of `parseExtractionResponse` (claude.ts
lines 96-107): trim, strip the opening fence, strip the closing fence,
trim again. -/
def fenceStrip (responseText : List Char) : List Char :=
  trimChars (stripCloseFence (stripOpenFence (trimChars responseText)))

/-- The structural validation of `parseExtractionResponse` (claude.ts
lines 119-132) on the already-parsed value: falsy or non-object values are
refused; an object must carry an `entities` array, except that a bare
array is accepted as the entity list itself. -/
def parseStructure (parsed : Json) : Except ParseErr (List ExtractedEntity) :=
  if isObjectLike parsed then
    match jsGet parsed "entities".data with
    | some (.arr entities) => .ok (validateEntities entities)
    | _ =>
      match parsed with
      | .arr entities => .ok (validateEntities entities)
      | _ => .error .missingEntities
  else .error .notAnObject

/-- `parseExtractionResponse` (claude.ts lines 92-133): strip fences,
`JSON.parse`, validate the structure.  A JSON failure reports the first
200 characters of the raw response. -/
def parseExtractionResponse (responseText : List Char) :
    Except ParseErr (List ExtractedEntity) :=
  match jsonParse (fenceStrip responseText) with
  | none => .error (.invalidJson (responseText.take 200))
  | some parsed => parseStructure parsed

/-! ## services/claude.ts — callClaudeForExtraction, truncation step -/

/-- `maxTextLength` (claude.ts line 34). -/
def maxTextLength : Nat := 50000

/-- The marker appended when a document is cut (claude.ts line 37). -/
def truncationMarker : List Char := "\n\n[Document truncated...]".data

/-- The `truncatedText` computation of `callClaudeForExtraction`
(claude.ts lines 35-38): documents beyond the budget keep their first
`maxTextLength` characters and gain the visible marker. -/
def truncateForPrompt (documentText : List Char) : List Char :=
  if documentText.length > maxTextLength then
    documentText.take maxTextLength ++ truncationMarker
  else documentText

/-! ## services/textExtractor.ts

The two document libraries (`pdf-parse`, `mammoth`) are external; each is
modelled as a function from a buffer to either the text it found or the
message of the error it threw (`"Unknown error"` standing for a non-Error
throw, as the source substitutes). -/

/-- `extractFromPDF` (textExtractor.ts lines 26-34): trim the parsed text;
wrap any parse failure in `Failed to parse PDF: <cause>`. -/
def extractFromPDF (parseOutcome : Except (List Char) (List Char)) :
    Except (List Char) (List Char) :=
  match parseOutcome with
  | .ok text => .ok (trimChars text)
  | .error message => .error ("Failed to parse PDF: ".data ++ message)

/-- `extractFromDOCX` (textExtractor.ts lines 39-53): trim the raw text
(warnings are only logged); wrap any failure in
`Failed to parse DOCX: <cause>`. -/
def extractFromDOCX (parseOutcome : Except (List Char) (List Char)) :
    Except (List Char) (List Char) :=
  match parseOutcome with
  | .ok text => .ok (trimChars text)
  | .error message => .error ("Failed to parse DOCX: ".data ++ message)

/-- Index of the last `.`, as `String.prototype.lastIndexOf(".")` finds
it (`none` for `-1`). -/
def lastDotIdx : List Char → Option Nat
  | [] => none
  | c :: rest =>
    match lastDotIdx rest with
    | some i => some (i + 1)
    | none => if c = '.' then some 0 else none

/-- `toLowerCase`, character by character; `Char.toLower` coincides with
the JavaScript mapping on every character appearing in a supported file
name. -/
def lowerChars (l : List Char) : List Char := l.map Char.toLower

/-- The extension computation of `extractTextFromFile` (textExtractor.ts
lines 70-72): `originalName.toLowerCase().slice(lastIndexOf("."))`.  When
no dot exists, `lastIndexOf` is `-1` and `slice(-1)` keeps the final
character. -/
def extOf (originalName : List Char) : List Char :=
  let lower := lowerChars originalName
  match lastDotIdx lower with
  | some i => lower.drop i
  | none => lower.drop (lower.length - 1)

/-- `extractTextFromFile` (textExtractor.ts lines 62-86).  The `readFile`
outcome and the two library parsers arrive as data; a read failure
propagates unwrapped because the call sits before the format dispatch. -/
def extractTextFromFile {β : Type} (pdfParseFn docxParseFn : β → Except (List Char) (List Char))
    (readOutcome : Except (List Char) β) (originalName : List Char) :
    Except (List Char) (List Char) :=
  match readOutcome with
  | .error m => .error m
  | .ok buffer =>
    let extension := extOf originalName
    if extension = ".pdf".data then extractFromPDF (pdfParseFn buffer)
    else if extension = ".docx".data then extractFromDOCX (docxParseFn buffer)
    else .error ("Unsupported file type: ".data ++ extension ++
                 ". Supported types: .pdf, .docx".data)

/-- Substring occurrence, for stating what an error message carries. -/
def containsSeg (haystack needle : List Char) : Bool :=
  haystack.tails.any fun t => needle.isPrefixOf t

/-! ## services/database.ts and routes/upload.ts

The storage client is external.  Its modelled contract, taken from the
supabase API the source calls: `insert(records).select()` either fails
with a message or returns exactly the inserted rows in order, each
carrying the record's fields plus server-assigned id and timestamps. -/

/-- `StoredEntity` (types/index.ts lines 18-24): the extracted fields plus
persistence metadata. -/
structure StoredEntity extends ExtractedEntity where
  id : List Char
  source_document_name : List Char
  raw_json : Option Json
  created_at : List Char
  updated_at : List Char

/-- One batch-insert round of the storage collaborator: either the message
of a failure, or the metadata it assigns to the row at each position. -/
structure DbBehavior where
  insertError : Option (List Char)
  rowId : Nat → List Char
  rowCreatedAt : Nat → List Char
  rowUpdatedAt : Nat → List Char

/-- `saveEntities` (database.ts lines 77-112): an empty list returns `[]`
without touching the database; a failing insert throws
`Failed to save entities: <cause>`; a successful insert returns one stored
row per record, in order. -/
def saveEntities (entities : List ExtractedEntity) (sourceDocumentName : List Char)
    (rawJson : Option Json) (db : DbBehavior) :
    Except (List Char) (List StoredEntity) :=
  if entities.length = 0 then .ok []
  else
    match db.insertError with
    | some m => .error ("Failed to save entities: ".data ++ m)
    | none =>
      .ok (entities.enum.map fun p =>
        { toExtractedEntity := p.2
          id := db.rowId p.1
          source_document_name := sourceDocumentName
          raw_json := rawJson
          created_at := db.rowCreatedAt p.1
          updated_at := db.rowUpdatedAt p.1 })

/-- `ExtractionResponse` (types/index.ts lines 27-30): the validated
entities of one LLM call plus the opaque audit payload. -/
structure ExtractionResponseM where
  entities : List ExtractedEntity
  raw_response : Option Json

/-- Everything that can vary about processing one uploaded file: its name
and the outcomes of the three awaited stages (text extraction, the LLM
call with response validation, the insert).  An `Except.error` is a thrown
exception's message. -/
structure FileJob where
  filename : List Char
  extractOutcome : Except (List Char) (List Char)
  claudeOutcome : Except (List Char) ExtractionResponseM
  db : DbBehavior

/-- `ProcessingResult` (types/index.ts lines 33-39). -/
structure ProcessingResult where
  success : Bool
  filename : List Char
  entities_count : Nat
  entities : List StoredEntity
  error : Option (List Char)

/-- The failed result built by the `catch` of `processFile`. -/
def mkFailedResult (filename m : List Char) : ProcessingResult :=
  ⟨false, filename, 0, [], some m⟩

/-- `processFile` (upload.ts lines 107-172): the three stages in sequence;
blank text is a non-fatal failure; zero entities are a success without a
database call; any thrown stage is caught into a failed result carrying
the message. -/
def processFile (job : FileJob) : ProcessingResult :=
  match job.extractOutcome with
  | .error m => mkFailedResult job.filename m
  | .ok extractedText =>
    if extractedText = [] ∨ (trimChars extractedText).length = 0 then
      ⟨false, job.filename, 0, [],
        some "No text could be extracted from the file".data⟩
    else
      match job.claudeOutcome with
      | .error m => mkFailedResult job.filename m
      | .ok extraction =>
        if extraction.entities.length = 0 then ⟨true, job.filename, 0, [], none⟩
        else
          match saveEntities extraction.entities job.filename
              extraction.raw_response job.db with
          | .error m => mkFailedResult job.filename m
          | .ok savedEntities =>
            ⟨true, job.filename, savedEntities.length, savedEntities, none⟩

/-- The per-file loop of `router.post` (upload.ts lines 79-82): every file
is processed, sequentially, in submission order. -/
def processBatch (jobs : List FileJob) : List ProcessingResult :=
  jobs.map processFile

/-! ## Model of `JSON.stringify` on the validator's output envelope

Used for the idempotence claim: the validator's entity list, re-serialized
as `{"entities":[...]}` exactly as `JSON.stringify` would (property
insertion order, no inserted whitespace, the standard string escapes). -/

/-- Lowercase hexadecimal digit. -/
def hexDigitChar (n : Nat) : Char :=
  if n < 10 then Char.ofNat (48 + n) else Char.ofNat (87 + n)

/-- The escape `JSON.stringify` applies to one character of a string
value: `"` and `\` and the five short control escapes, `\u00xx` for the
remaining control characters, the character itself otherwise. -/
def escChar (c : Char) : List Char :=
  if c = '"' then ['\\', '"']
  else if c = '\\' then ['\\', '\\']
  else if c = '\x08' then ['\\', 'b']
  else if c = '\t' then ['\\', 't']
  else if c = '\n' then ['\\', 'n']
  else if c = '\x0c' then ['\\', 'f']
  else if c = '\r' then ['\\', 'r']
  else if c.toNat < 32 then
    ['\\', 'u', '0', '0', hexDigitChar (c.toNat / 16), hexDigitChar (c.toNat % 16)]
  else [c]

/-- Escape every character of a string body. -/
def escChars (s : List Char) : List Char := (s.map escChar).flatten

/-- A JSON string literal. -/
def serializeStr (s : List Char) : List Char := '"' :: (escChars s ++ ['"'])

/-- A field value: `null` or a string literal. -/
def serializeField : Option (List Char) → List Char
  | none => "null".data
  | some s => serializeStr s

/-- The seven properties of a validator-produced entity, in the insertion
order of the object literal of claude.ts lines 147-155. -/
def entityMembers (e : ExtractedEntity) : List (List Char × Option (List Char)) :=
  [("full_name".data, e.full_name), ("email".data, e.email),
   ("phone_number".data, e.phone_number), ("address".data, e.address),
   ("organisation".data, e.organisation), ("role_title".data, e.role_title),
   ("comments".data, e.comments)]

/-- `"key":value` members joined with commas. -/
def serializeMembers : List (List Char × Option (List Char)) → List Char
  | [] => []
  | [(k, o)] => serializeStr k ++ ':' :: serializeField o
  | (k, o) :: rest => serializeStr k ++ ':' :: (serializeField o ++ ',' :: serializeMembers rest)

/-- `JSON.stringify` of one validator-produced entity. -/
def serializeEntity (e : ExtractedEntity) : List Char :=
  '{' :: (serializeMembers (entityMembers e) ++ ['}'])

/-- Entity objects joined with commas. -/
def serializeEntityList : List ExtractedEntity → List Char
  | [] => []
  | [e] => serializeEntity e
  | e :: rest => serializeEntity e ++ ',' :: serializeEntityList rest

/-- `JSON.stringify({ entities })` of a validator-produced entity list. -/
def serializeEnvelope (es : List ExtractedEntity) : List Char :=
  '{' :: (serializeStr "entities".data ++ ':' :: '[' ::
    (serializeEntityList es ++ "]\x7d".data))

/-- The JSON value a field of a validator-produced entity denotes. -/
def optJson : Option (List Char) → Json
  | none => .null
  | some s => .str s

/-- The JSON value of a serialized entity. -/
def entityJson (e : ExtractedEntity) : Json :=
  .obj ((entityMembers e).map fun p => (p.1, optJson p.2))

/-- The JSON value of the serialized envelope. -/
def envelopeJson (es : List ExtractedEntity) : Json :=
  .obj [("entities".data, .arr (es.map entityJson))]

/-! ## Field inventories (types/index.ts, claude.ts, entities.ts) -/

/-- The properties the TypeScript interface `ExtractedEntity` declares
(types/index.ts lines 6-15). -/
def declaredEntityFields : List (List Char) :=
  ["full_name".data, "email".data, "phone_number".data, "address".data,
   "organisation".data, "role_title".data, "technology_stack".data,
   "comments".data]

/-- The properties `validateEntities` writes (claude.ts lines 147-155). -/
def validatedEntityFields : List (List Char) :=
  ["full_name".data, "email".data, "phone_number".data, "address".data,
   "organisation".data, "role_title".data, "comments".data]

/-- The CSV column headers of the export route (entities.ts lines
108-119). -/
def csvHeaders : List (List Char) :=
  ["Full Name".data, "Email".data, "Phone Number".data, "Address".data,
   "Organisation".data, "Role/Title".data, "Technology Stack".data,
   "Comments".data, "Source Document".data, "Extracted Date".data]

/-- The fenced-code-block wrapping named by the spec: a fence with the
given language tag (possibly empty), a newline, the text, a newline, a
closing fence. -/
def fenceWrap (tag s : List Char) : List Char :=
  "```".data ++ tag ++ '\n' :: (s ++ '\n' :: "```".data)

/-- A normalized optional field: absent, or a nonempty string equal to its
own trim. -/
def normalizedField : Option (List Char) → Bool
  | none => true
  | some t => (trimChars t == t) && !t.isEmpty

/-- An entity all of whose fields are normalized. -/
def normalizedEntity (e : ExtractedEntity) : Bool :=
  normalizedField e.full_name && normalizedField e.email &&
  normalizedField e.phone_number && normalizedField e.address &&
  normalizedField e.organisation && normalizedField e.role_title &&
  normalizedField e.comments

/-! ## Claims -/

-- Dropping from the front of an append: either the first part vanishes
-- entirely, or the second part is untouched.
theorem dropWhile_append_split {α : Type _} [DecidableEq α] (p : α → Bool) (l m : List α) :
    List.dropWhile p (l ++ m) =
      if List.dropWhile p l = [] then List.dropWhile p m
      else List.dropWhile p l ++ m := by
  induction l with
  | nil => simp
  | cons a l ih =>
    by_cases hp : p a
    · simpa [List.dropWhile_cons, hp] using ih
    · simp [List.dropWhile_cons, hp]

theorem trimChars_eq_rdrop (l : List Char) :
    trimChars l = List.rdropWhile isJsWs (List.dropWhile isJsWs l) := rfl

theorem trimChars_cons_ws (c : Char) (hc : isJsWs c = true) (l : List Char) :
    trimChars (c :: l) = trimChars l := by
  simp [trimChars, List.dropWhile_cons, hc]

theorem trimChars_concat_ws (c : Char) (hc : isJsWs c = true) (l : List Char) :
    trimChars (l ++ [c]) = trimChars l := by
  rw [trimChars_eq_rdrop, trimChars_eq_rdrop, dropWhile_append_split]
  by_cases h : List.dropWhile isJsWs l = []
  · simp [h, List.dropWhile_cons, hc]
  · rw [if_neg h, List.rdropWhile_concat_pos _ _ _ hc]

theorem trimChars_wrap_eq_self (c d : Char) (hc : isJsWs c = false)
    (hd : isJsWs d = false) (mid : List Char) :
    trimChars (c :: (mid ++ [d])) = c :: (mid ++ [d]) := by
  have h1 : List.dropWhile isJsWs (c :: (mid ++ [d])) = c :: (mid ++ [d]) := by
    simp [List.dropWhile_cons, hc]
  rw [trimChars_eq_rdrop, h1, show c :: (mid ++ [d]) = (c :: mid) ++ [d] by simp,
    List.rdropWhile_concat_neg _ _ _ (by simp [hd])]

theorem trimChars_idem (l : List Char) : trimChars (trimChars l) = trimChars l := by
  rw [trimChars_eq_rdrop l, trimChars_eq_rdrop]
  have h1 : List.dropWhile isJsWs
      (List.rdropWhile isJsWs (List.dropWhile isJsWs l)) =
      List.rdropWhile isJsWs (List.dropWhile isJsWs l) := by
    obtain ⟨t, ht⟩ := List.rdropWhile_prefix isJsWs (List.dropWhile isJsWs l)
    cases hX : List.rdropWhile isJsWs (List.dropWhile isJsWs l) with
    | nil => rfl
    | cons a xs =>
      rw [hX] at ht
      rw [List.dropWhile_cons]
      have hZne : List.dropWhile isJsWs l ≠ [] := by
        rw [← ht]
        simp
      have h5 : (List.dropWhile isJsWs l).head? = some a := by
        rw [← ht]
        rfl
      rw [List.head?_eq_head hZne, Option.some.injEq] at h5
      have hhead := List.head_dropWhile_not isJsWs l hZne
      rw [h5] at hhead
      rw [hhead]
      simp
  rw [h1, List.rdropWhile_idempotent]

-- A list whose first element is not a backtick has no opening-fence
-- marker, with or without the language tag.
theorem isPrefixOf_backticks_eq_false {t : List Char} (h : t.head? ≠ some '`') :
    "```json".data.isPrefixOf t = false ∧ "```".data.isPrefixOf t = false := by
  cases t with
  | nil => exact ⟨rfl, rfl⟩
  | cons c r =>
    have hc : ('`' = c) ↔ False := by
      constructor
      · intro he
        exact h (by rw [← he]; rfl)
      · exact False.elim
    constructor <;> simp [List.isPrefixOf, hc]

-- A list whose last element is not a backtick has no closing fence.
theorem isSuffixOf_backticks_eq_false {t : List Char} (h : t.getLast? ≠ some '`') :
    "```".data.isSuffixOf t = false := by
  have h' : t.reverse.head? ≠ some '`' := by rwa [List.head?_reverse]
  exact (isPrefixOf_backticks_eq_false h').2

-- The closing fence of a wrapped text is found and removed, leaving the
-- inner text between two newlines.
theorem stripCloseFence_wrapped (s : List Char) :
    stripCloseFence ('\n' :: (s ++ ['\n', '`', '`', '`'])) =
      '\n' :: (s ++ ['\n']) := by
  have hrev : ('\n' :: (s ++ ['\n', '`', '`', '`'])).reverse =
      '`' :: '`' :: '`' :: '\n' :: (s.reverse ++ ['\n']) := by
    simp
  have hsuf : "```".data.isSuffixOf ('\n' :: (s ++ ['\n', '`', '`', '`'])) = true := by
    rw [List.isSuffixOf, hrev]
    rfl
  rw [stripCloseFence, hsuf, if_pos rfl, dropRight]
  have hlen : ('\n' :: (s ++ ['\n', '`', '`', '`'])).length - 3 = s.length + 2 := by
    simp
  rw [hlen]
  rw [show ('\n' :: (s ++ ['\n', '`', '`', '`'])).take (s.length + 2) =
      '\n' :: ((s ++ ['\n', '`', '`', '`']).take (s.length + 1)) from rfl,
    List.take_append_eq_append_take, List.take_of_length_le (by omega)]
  simp

theorem fenceStrip_wrap_json (s : List Char) :
    fenceStrip (fenceWrap "json".data s) = trimChars s := by
  have hshape : fenceWrap "json".data s =
      '`' :: (('`' :: '`' :: 'j' :: 's' :: 'o' :: 'n' :: '\n' ::
        (s ++ ['\n', '`', '`'])) ++ ['`']) := by
    simp [fenceWrap]
  have hflat : fenceWrap "json".data s =
      '`' :: '`' :: '`' :: 'j' :: 's' :: 'o' :: 'n' :: '\n' ::
        (s ++ ['\n', '`', '`', '`']) := by
    simp [fenceWrap]
  have htrim : trimChars (fenceWrap "json".data s) = fenceWrap "json".data s := by
    rw [hshape]
    exact trimChars_wrap_eq_self '`' '`' rfl rfl _
  have hopen : stripOpenFence (fenceWrap "json".data s) =
      '\n' :: (s ++ ['\n', '`', '`', '`']) := by
    rw [hflat]
    rfl
  rw [fenceStrip, htrim, hopen, stripCloseFence_wrapped,
    trimChars_cons_ws '\n' rfl, trimChars_concat_ws '\n' rfl]

theorem fenceStrip_wrap_bare (s : List Char) :
    fenceStrip (fenceWrap [] s) = trimChars s := by
  have hshape : fenceWrap [] s =
      '`' :: (('`' :: '`' :: '\n' :: (s ++ ['\n', '`', '`'])) ++ ['`']) := by
    simp [fenceWrap]
  have hflat : fenceWrap [] s =
      '`' :: '`' :: '`' :: '\n' :: (s ++ ['\n', '`', '`', '`']) := by
    simp [fenceWrap]
  have htrim : trimChars (fenceWrap [] s) = fenceWrap [] s := by
    rw [hshape]
    exact trimChars_wrap_eq_self '`' '`' rfl rfl _
  have hopen : stripOpenFence (fenceWrap [] s) =
      '\n' :: (s ++ ['\n', '`', '`', '`']) := by
    rw [hflat]
    rfl
  rw [fenceStrip, htrim, hopen, stripCloseFence_wrapped,
    trimChars_cons_ws '\n' rfl, trimChars_concat_ws '\n' rfl]

-- On a text that neither begins nor ends with a backtick once trimmed,
-- the fence-stripping preamble is just the trim.
theorem fenceStrip_plain {s : List Char}
    (hfirst : (trimChars s).head? ≠ some '`')
    (hlast : (trimChars s).getLast? ≠ some '`') :
    fenceStrip s = trimChars s := by
  obtain ⟨h7, h3⟩ := isPrefixOf_backticks_eq_false hfirst
  have hsuf := isSuffixOf_backticks_eq_false hlast
  have hopen : stripOpenFence (trimChars s) = trimChars s := by
    simp [stripOpenFence, h7, h3]
  have hclose : stripCloseFence (trimChars s) = trimChars s := by
    simp [stripCloseFence, hsuf]
  rw [fenceStrip, hopen, hclose, trimChars_idem]

/-- C1 (amended): wrapping a response in a fenced code block preserves the
parse when the fence carries the tag `json` or no tag at all, for any text
that — once trimmed — neither begins nor ends with a backtick (true of
every string that is valid JSON, whose first and last significant
characters come from `{}[]"`, digits, `-`, or the keyword letters).  A
fence with any other language tag is *not* stripped by the source and
breaks the parse (see the counterexample). -/
theorem claude_fence_wrapping_json_or_bare (s : List Char)
    (es : List ExtractedEntity)
    (hfirst : (trimChars s).head? ≠ some '`')
    (hlast : (trimChars s).getLast? ≠ some '`')
    (hok : parseExtractionResponse s = .ok es) :
    parseExtractionResponse (fenceWrap "json".data s) = .ok es ∧
    parseExtractionResponse (fenceWrap [] s) = .ok es := by
  rw [parseExtractionResponse, fenceStrip_plain hfirst hlast] at hok
  cases hjp : jsonParse (trimChars s) with
  | none =>
    rw [hjp] at hok
    exact absurd hok (by simp)
  | some v =>
    rw [hjp] at hok
    constructor
    · rw [parseExtractionResponse, fenceStrip_wrap_json, hjp]
      exact hok
    · rw [parseExtractionResponse, fenceStrip_wrap_bare, hjp]
      exact hok

/-- Witness for C1's amended claim at a concrete envelope. -/
theorem claude_fence_wrapping_json_or_bare_witness :
    parseExtractionResponse (fenceWrap "json".data "\x7b\"entities\":[]\x7d".data) = .ok [] ∧
    parseExtractionResponse (fenceWrap [] "\x7b\"entities\":[]\x7d".data) = .ok [] :=
  claude_fence_wrapping_json_or_bare "\x7b\"entities\":[]\x7d".data []
    (by decide) (by decide) (by decide)

/-- C1 counterexample: the source strips only ```` ```json ```` or a bare
```` ``` ```` opening fence, so wrapping valid JSON with the language tag
`typescript` — which the claim includes — leaves `typescript` glued to the
payload and the parse fails instead of returning the same entity list. -/
theorem claude_fence_language_tag_counterexample :
    parseExtractionResponse "\x7b\"entities\":[]\x7d".data = .ok [] ∧
    parseExtractionResponse (fenceWrap "typescript".data "\x7b\"entities\":[]\x7d".data) =
      .error (.invalidJson "```typescript\n\x7b\"entities\":[]\x7d\n```".data) := by
  exact ⟨by decide, by decide⟩

/-- C5: once the (fence-stripped) response text parses as JSON, the
structural rules are: a bare array is the entity list itself; an object
must hold an `entities` array, which is validated; an object without an
`entities` array fails with the error naming the missing field; any other
value fails as "not an object".  Both failures are `MalformedResponse` in
the spec's taxonomy. -/
theorem claude_parseExtractionResponse_envelope (s : List Char) (v : Json)
    (hp : jsonParse (fenceStrip s) = some v) :
    (∀ js, v = .arr js → parseExtractionResponse s = .ok (validateEntities js)) ∧
    (∀ kvs js, v = .obj kvs → lookupLast kvs "entities".data = some (.arr js) →
      parseExtractionResponse s = .ok (validateEntities js)) ∧
    (∀ kvs, v = .obj kvs → (∀ js, lookupLast kvs "entities".data ≠ some (.arr js)) →
      parseExtractionResponse s = .error .missingEntities ∧
      containsSeg (ParseErr.message .missingEntities) "entities".data = true) ∧
    ((∀ js, v ≠ .arr js) → (∀ kvs, v ≠ .obj kvs) →
      parseExtractionResponse s = .error .notAnObject) := by
  rw [parseExtractionResponse, hp]
  refine ⟨fun js hv => ?_, fun kvs js hv hl => ?_, fun kvs hv hl => ?_, fun ha ho => ?_⟩
  · subst hv
    rfl
  · subst hv
    simp [parseStructure, isObjectLike, jsGet, hl]
  · subst hv
    refine ⟨?_, by decide⟩
    show parseStructure (.obj kvs) = .error .missingEntities
    rw [parseStructure]
    simp only [isObjectLike, if_pos, jsGet]
    cases hll : lookupLast kvs "entities".data with
    | none => exact fun entities h => Json.noConfusion h
    | some w =>
      cases w with
      | arr js => exact absurd hll (hl js)
      | null => exact fun entities h => Json.noConfusion h
      | bool b => exact fun entities h => Json.noConfusion h
      | num n => exact fun entities h => Json.noConfusion h
      | str t => exact fun entities h => Json.noConfusion h
      | obj o => exact fun entities h => Json.noConfusion h
  · cases v with
    | arr js => exact absurd rfl (ha js)
    | obj kvs => exact absurd rfl (ho kvs)
    | null => rfl
    | bool b => rfl
    | num n => rfl
    | str t => rfl

/-- Witness for C5: a bare array response, a proper envelope, an envelope
without the `entities` field, and a bare scalar, each at a concrete
input. -/
theorem claude_parseExtractionResponse_envelope_witness :
    parseExtractionResponse "[]".data = .ok [] ∧
    parseExtractionResponse "\x7b\"entities\":[]\x7d".data = .ok [] ∧
    parseExtractionResponse "\x7b\"items\":[]\x7d".data = .error .missingEntities ∧
    parseExtractionResponse "7".data = .error .notAnObject := by
  refine ⟨?_, ?_, ?_, ?_⟩
  · exact (claude_parseExtractionResponse_envelope "[]".data (.arr []) rfl).1 [] rfl
  · exact (claude_parseExtractionResponse_envelope "\x7b\"entities\":[]\x7d".data
      (.obj [("entities".data, .arr [])]) rfl).2.1
      [("entities".data, .arr [])] [] rfl rfl
  · exact ((claude_parseExtractionResponse_envelope "\x7b\"items\":[]\x7d".data
      (.obj [("items".data, .arr [])]) rfl).2.2.1
      [("items".data, .arr [])] rfl (fun js h => by simp [lookupLast] at h)).1
  · exact (claude_parseExtractionResponse_envelope "7".data (.num 7)
      rfl).2.2.2 (fun js h => Json.noConfusion h) (fun kvs h => Json.noConfusion h)

/-- C3: field normalization.  `null` and `undefined` (absent key) map to
`null`; a non-string scalar maps to its string form (`String(value)`); a
string maps to its trim, `null` when the trim is empty and the trimmed
string itself, unchanged, otherwise. -/
theorem claude_normalizeString_normalization :
    normalizeString none = none ∧
    normalizeString (some .null) = none ∧
    (∀ n : Int, normalizeString (some (.num n)) = some (toString n).data) ∧
    normalizeString (some (.bool true)) = some "true".data ∧
    normalizeString (some (.bool false)) = some "false".data ∧
    (∀ s, trimChars s = [] → normalizeString (some (.str s)) = none) ∧
    (∀ s, trimChars s ≠ [] → normalizeString (some (.str s)) = some (trimChars s)) := by
  refine ⟨rfl, rfl, fun n => rfl, rfl, rfl, fun s h => ?_, fun s h => ?_⟩
  · simp [normalizeString, h]
  · simp only [normalizeString]
    rw [if_pos (List.length_pos.mpr h)]

/-- Witness for C3 at concrete inputs: a whitespace-only string becomes
null, a padded name keeps its inner text exactly. -/
theorem claude_normalizeString_normalization_witness :
    normalizeString (some (.str "   ".data)) = none ∧
    normalizeString (some (.str "  Jane Doe ".data)) = some "Jane Doe".data := by
  constructor
  · exact claude_normalizeString_normalization.2.2.2.2.2.1 "   ".data (by decide)
  · rw [claude_normalizeString_normalization.2.2.2.2.2.2 "  Jane Doe ".data (by decide)]
    decide

/-- C6: the prompt text sent to the model is the document itself when its
length is within the 50000-character budget, and exactly the first 50000
characters followed by the visible truncation marker otherwise. -/
theorem claude_truncateForPrompt_spec (documentText : List Char) :
    (documentText.length ≤ maxTextLength → truncateForPrompt documentText = documentText) ∧
    (documentText.length > maxTextLength →
      truncateForPrompt documentText =
        documentText.take maxTextLength ++ truncationMarker) := by
  refine ⟨fun h => ?_, fun h => ?_⟩
  · rw [truncateForPrompt, if_neg (Nat.not_lt.mpr h)]
  · rw [truncateForPrompt, if_pos h]

/-- Witness for C6: a short text passes unchanged; a 50001-character text
is cut to its first 50000 characters plus the marker. -/
theorem claude_truncateForPrompt_witness :
    truncateForPrompt "short text".data = "short text".data ∧
    truncateForPrompt (List.replicate 50001 'a') =
      List.replicate 50000 'a' ++ truncationMarker := by
  constructor
  · exact (claude_truncateForPrompt_spec _).1 (by decide)
  · rw [(claude_truncateForPrompt_spec _).2
        (by simp only [List.length_replicate, maxTextLength]; omega),
      maxTextLength, List.take_replicate]
    norm_num

-- Filtering out bindings that the lookup's key always keeps does not
-- change the lookup.
theorem lookupLast_filter_keep (p : List Char × Json → Bool)
    (kvs : List (List Char × Json)) (k : List Char)
    (hkeep : ∀ v, p (k, v) = true) :
    lookupLast (kvs.filter p) k = lookupLast kvs k := by
  induction kvs with
  | nil => rfl
  | cons hd tl ih =>
    obtain ⟨k', v⟩ := hd
    by_cases hp : p (k', v)
    · simp only [List.filter_cons, hp, if_pos, lookupLast, ih]
    · have hne : k' ≠ k := by
        intro he; subst he; exact hp (hkeep v)
      simp only [List.filter_cons, hp, Bool.false_eq_true, if_false, lookupLast, ih]
      cases lookupLast tl k with
      | some w => rfl
      | none => simp [hne]

/-- C4: the validator maps each array element independently: output length
equals input length with order preserved and no deduplication; an element
that is not an object becomes the all-null placeholder; an object element
becomes the record of its seven independently normalized recognized
fields. -/
theorem claude_validateEntities_shape (entities : List Json) :
    (validateEntities entities).length = entities.length ∧
    (∀ i (h : i < entities.length),
      (validateEntities entities).get ⟨i, by simpa [validateEntities] using h⟩ =
        validateEntity (entities.get ⟨i, h⟩)) ∧
    (∀ j : Json, (∀ kvs, j ≠ .obj kvs) → validateEntity j = createEmptyEntity) ∧
    (∀ kvs, validateEntity (.obj kvs) =
      { full_name := normalizeString (lookupLast kvs "full_name".data)
        email := normalizeString (lookupLast kvs "email".data)
        phone_number := normalizeString (lookupLast kvs "phone_number".data)
        address := normalizeString (lookupLast kvs "address".data)
        organisation := normalizeString (lookupLast kvs "organisation".data)
        role_title := normalizeString (lookupLast kvs "role_title".data)
        comments := normalizeString (lookupLast kvs "comments".data) }) := by
  refine ⟨by simp [validateEntities], fun i h => ?_, fun j hj => ?_, fun kvs => rfl⟩
  · simp [validateEntities, List.get_eq_getElem, List.getElem_map]
  · cases j with
    | obj kvs => exact absurd rfl (hj kvs)
    | null => rfl
    | bool b => rfl
    | num n => rfl
    | str s => rfl
    | arr es => rfl

/-- Witness for C4 at a concrete mixed array: a number element yields the
placeholder at its position, an object element its normalized record, and
the length and order are kept. -/
theorem claude_validateEntities_shape_witness :
    (validateEntities [.num 7, .obj [("full_name".data, .str " Ada ".data)]]).length = 2 ∧
    (validateEntities [.num 7, .obj [("full_name".data, .str " Ada ".data)]]).get
        ⟨0, by decide⟩ = createEmptyEntity := by
  refine ⟨(claude_validateEntities_shape _).1.trans rfl, ?_⟩
  rw [(claude_validateEntities_shape
    [.num 7, .obj [("full_name".data, .str " Ada ".data)]]).2.1 0 (by decide)]
  rfl

/-- C10: the validator populates only the seven recognized fields; any
`technology_stack` or `id_number` binding in a model-output element is
silently discarded (filtering such bindings out changes nothing), even
though the declared `ExtractedEntity` interface lists `technology_stack`
and the CSV export has a column reading it. -/
theorem claude_validator_discards_unrecognized_fields :
    (∀ kvs, validateEntity (.obj (kvs.filter fun p =>
        !(p.1 == "technology_stack".data || p.1 == "id_number".data))) =
      validateEntity (.obj kvs)) ∧
    "technology_stack".data ∈ declaredEntityFields ∧
    "technology_stack".data ∉ validatedEntityFields ∧
    "Technology Stack".data ∈ csvHeaders := by
  refine ⟨fun kvs => ?_, by decide, by decide, by decide⟩
  simp only [validateEntity, isObjectLike, if_pos, jsGet]
  rw [lookupLast_filter_keep _ kvs "full_name".data (fun v => rfl),
    lookupLast_filter_keep _ kvs "email".data (fun v => rfl),
    lookupLast_filter_keep _ kvs "phone_number".data (fun v => rfl),
    lookupLast_filter_keep _ kvs "address".data (fun v => rfl),
    lookupLast_filter_keep _ kvs "organisation".data (fun v => rfl),
    lookupLast_filter_keep _ kvs "role_title".data (fun v => rfl),
    lookupLast_filter_keep _ kvs "comments".data (fun v => rfl)]

/-- C7: the batch loop yields exactly one result per file, in submission
order, each depending only on its own file; a stage that throws for one
file is caught into a failed result carrying the thrown message (shown
here for the extraction stage, the LLM stage and the insert stage), and
no other file's processing is affected. -/
theorem upload_processBatch_per_file (jobs : List FileJob) :
    (processBatch jobs).length = jobs.length ∧
    (∀ i (h : i < jobs.length),
      (processBatch jobs).get ⟨i, by simpa [processBatch] using h⟩ =
        processFile (jobs.get ⟨i, h⟩)) ∧
    (∀ (job : FileJob) (m : List Char), job.extractOutcome = .error m →
      processFile job = mkFailedResult job.filename m) ∧
    (∀ (job : FileJob) (text m : List Char), job.extractOutcome = .ok text →
      ¬(text = [] ∨ (trimChars text).length = 0) → job.claudeOutcome = .error m →
      processFile job = mkFailedResult job.filename m) ∧
    (∀ (job : FileJob) (text : List Char) (ex : ExtractionResponseM) (m : List Char),
      job.extractOutcome = .ok text →
      ¬(text = [] ∨ (trimChars text).length = 0) → job.claudeOutcome = .ok ex →
      ex.entities.length ≠ 0 → job.db.insertError = some m →
      processFile job =
        mkFailedResult job.filename ("Failed to save entities: ".data ++ m)) := by
  refine ⟨by simp [processBatch], fun i h => ?_, fun job m hm => ?_,
    fun job text m hx hblank hm => ?_, fun job text ex m hx hblank hc hne hdb => ?_⟩
  · simp [processBatch, List.get_eq_getElem, List.getElem_map]
  · simp [processFile, hm]
  · rw [processFile, hx]
    simp only [if_neg hblank, hm]
  · rw [processFile, hx]
    simp only [if_neg hblank, hc, if_neg hne, saveEntities, hdb]

/-- Witness for C7: in a concrete batch of three files whose second file's
extraction throws, the middle result is that file's failure with the
thrown message, and the results line up one per file. -/
theorem upload_processBatch_per_file_witness :
    (processBatch
      [⟨"a.pdf".data, .ok "alpha".data, .ok ⟨[], none⟩,
          ⟨none, fun _ => [], fun _ => [], fun _ => []⟩⟩,
       ⟨"b.pdf".data, .error "boom".data, .ok ⟨[], none⟩,
          ⟨none, fun _ => [], fun _ => [], fun _ => []⟩⟩,
       ⟨"c.pdf".data, .ok "gamma".data, .ok ⟨[], none⟩,
          ⟨none, fun _ => [], fun _ => [], fun _ => []⟩⟩]).get ⟨1, by decide⟩ =
      mkFailedResult "b.pdf".data "boom".data := by
  have hthm := upload_processBatch_per_file
    [⟨"a.pdf".data, .ok "alpha".data, .ok ⟨[], none⟩,
        ⟨none, fun _ => [], fun _ => [], fun _ => []⟩⟩,
     ⟨"b.pdf".data, .error "boom".data, .ok ⟨[], none⟩,
        ⟨none, fun _ => [], fun _ => [], fun _ => []⟩⟩,
     ⟨"c.pdf".data, .ok "gamma".data, .ok ⟨[], none⟩,
        ⟨none, fun _ => [], fun _ => [], fun _ => []⟩⟩]
  exact (hthm.2.1 1 (by decide)).trans
    ((hthm.2.2.1 _ "boom".data rfl).trans rfl)

/-- C8: for a successfully processed file the reported entity count, the
number of stored rows, and the length of the validated entity list
coincide; a validated list of length zero is reported as a success with
zero entities and an empty stored list. -/
theorem upload_entity_count_invariant (job : FileJob) (text : List Char)
    (ex : ExtractionResponseM) (js : List Json)
    (hx : job.extractOutcome = .ok text)
    (hblank : ¬(text = [] ∨ (trimChars text).length = 0))
    (hc : job.claudeOutcome = .ok ex)
    (hval : ex.entities = validateEntities js)
    (hdb : job.db.insertError = none) :
    (processFile job).success = true ∧
    (processFile job).entities_count = (validateEntities js).length ∧
    (processFile job).entities.length = (validateEntities js).length ∧
    (validateEntities js = [] →
      processFile job = ⟨true, job.filename, 0, [], none⟩) := by
  rw [processFile, hx]
  simp only [if_neg hblank, hc]
  by_cases he : ex.entities = []
  · have hnil : validateEntities js = [] := hval.symm.trans he
    simp [he, hnil]
  · simp [saveEntities, hdb, ← hval, he, List.enum_length]

/-- Witness for C8 at a concrete job: one validated entity gives a success
with one stored entity; the count matches the validated list. -/
theorem upload_entity_count_invariant_witness :
    (processFile ⟨"cv.pdf".data, .ok "text".data,
        .ok ⟨validateEntities [.num 1], none⟩,
        ⟨none, fun _ => "id0".data, fun _ => [], fun _ => []⟩⟩).success = true ∧
    (processFile ⟨"cv.pdf".data, .ok "text".data,
        .ok ⟨validateEntities [.num 1], none⟩,
        ⟨none, fun _ => "id0".data, fun _ => [], fun _ => []⟩⟩).entities_count = 1 := by
  have h := upload_entity_count_invariant
    ⟨"cv.pdf".data, .ok "text".data, .ok ⟨validateEntities [.num 1], none⟩,
      ⟨none, fun _ => "id0".data, fun _ => [], fun _ => []⟩⟩
    "text".data ⟨validateEntities [.num 1], none⟩ [.num 1]
    rfl (by decide) rfl rfl rfl
  exact ⟨h.1, h.2.1.trans rfl⟩

/-- C2 counterexample: a PDF whose library parse fails is re-thrown as
`Failed to parse PDF: <cause>`; the message does not contain the original
file name, contrary to the claim. -/
theorem textExtractor_error_lacks_filename :
    extractTextFromFile (fun _ : Unit => .error "bad XRef entry".data)
        (fun _ => .ok []) (.ok ()) "report.pdf".data =
      .error "Failed to parse PDF: bad XRef entry".data ∧
    containsSeg "Failed to parse PDF: bad XRef entry".data "report.pdf".data = false := by
  exact ⟨rfl, by decide⟩

/-- C2 amended: an underlying parse failure of a supported file is caught
and re-signaled as an error whose message names the format and carries the
library's human-readable cause (`Failed to parse PDF/DOCX: <cause>`); the
original file name is not part of that message — it is attached by the
orchestrator, whose failed per-file result pairs the file name with the
message. -/
theorem textExtractor_wraps_parse_failures {β : Type}
    (pdfParseFn docxParseFn : β → Except (List Char) (List Char)) (buffer : β)
    (name cause : List Char) :
    (extOf name = ".pdf".data → pdfParseFn buffer = .error cause →
      extractTextFromFile pdfParseFn docxParseFn (.ok buffer) name =
        .error ("Failed to parse PDF: ".data ++ cause)) ∧
    (extOf name = ".docx".data → docxParseFn buffer = .error cause →
      extractTextFromFile pdfParseFn docxParseFn (.ok buffer) name =
        .error ("Failed to parse DOCX: ".data ++ cause)) ∧
    (∀ (job : FileJob) (m : List Char), job.extractOutcome = .error m →
      processFile job = mkFailedResult job.filename m ∧
      (processFile job).filename = job.filename ∧
      (processFile job).error = some m) := by
  refine ⟨fun hext hfail => ?_, fun hext hfail => ?_, fun job m hm => ?_⟩
  · simp [extractTextFromFile, hext, hfail, extractFromPDF]
  · have hne : extOf name ≠ ".pdf".data := by
      rw [hext]; decide
    simp [extractTextFromFile, hext, if_neg hne, hfail, extractFromDOCX]
  · have h : processFile job = mkFailedResult job.filename m := by
      simp [processFile, hm]
    exact ⟨h, by rw [h]; rfl, by rw [h]; rfl⟩

/-- Witness for C2's amended claim at a concrete corrupt PDF and DOCX. -/
theorem textExtractor_wraps_parse_failures_witness :
    extractTextFromFile (fun _ : Unit => .error "bad XRef entry".data)
        (fun _ => .ok []) (.ok ()) "Report.PDF".data =
      .error "Failed to parse PDF: bad XRef entry".data ∧
    extractTextFromFile (fun _ : Unit => .ok [])
        (fun _ => .error "not a zip".data) (.ok ()) "cv.docx".data =
      .error "Failed to parse DOCX: not a zip".data := by
  constructor
  · exact (textExtractor_wraps_parse_failures _ _ () "Report.PDF".data
      "bad XRef entry".data).1 (by decide) rfl
  · exact (textExtractor_wraps_parse_failures _ _ () "cv.docx".data
      "not a zip".data).2.1 (by decide) rfl

/-! ### Round trip of the serialized envelope through the parser (C9) -/

theorem skipWs_cons_not (c : Char) (l : List Char) (h : isJsonWs c = false) :
    skipWs (c :: l) = c :: l := by
  simp [skipWs, List.dropWhile_cons, h]

theorem isPrefixOf_nil_left (r : List Char) : ([] : List Char).isPrefixOf r = true := by
  cases r <;> rfl

theorem isPrefixOf_self_append (l r : List Char) : l.isPrefixOf (l ++ r) = true := by
  induction l with
  | nil => exact isPrefixOf_nil_left r
  | cons a l ih => simp [List.isPrefixOf, ih]

theorem escChars_cons (c : Char) (t : List Char) :
    escChars (c :: t) = escChar c ++ escChars t := rfl

theorem hexVal_hexDigitChar (m : Nat) (hm : m < 16) :
    hexVal (hexDigitChar m) = some m := by
  interval_cases m <;> rfl

-- Reading the escape of one character consumes exactly one unit of fuel
-- and yields that character, whichever of the eight escape shapes applies.
theorem readStr_escChar_step (c : Char) (f : Nat) (tail : List Char) :
    readStr (f + 1) (escChar c ++ tail) =
      (readStr f tail).map fun p => (c :: p.1, p.2) := by
  by_cases hq : c = '"'
  · subst hq; rfl
  · by_cases hb : c = '\\'
    · subst hb; rfl
    · by_cases h8 : c = '\x08'
      · subst h8; rfl
      · by_cases ht : c = '\t'
        · subst ht; rfl
        · by_cases hn : c = '\n'
          · subst hn; rfl
          · by_cases hc12 : c = '\x0c'
            · subst hc12; rfl
            · by_cases hr : c = '\r'
              · subst hr; rfl
              · by_cases hlt : c.toNat < 32
                · have hesc : escChar c =
                      ['\\', 'u', '0', '0', hexDigitChar (c.toNat / 16),
                        hexDigitChar (c.toNat % 16)] := by
                    simp [escChar, hq, hb, h8, ht, hn, hc12, hr, hlt]
                  rw [hesc]
                  simp only [readStr, List.cons_append, List.nil_append]
                  simp only [hexVal_hexDigitChar (c.toNat / 16) (by omega),
                    hexVal_hexDigitChar (c.toNat % 16) (by omega)]
                  rw [if_neg (show ('\\' : Char) ≠ '"' by decide),
                    show hexVal '0' = some 0 from rfl]
                  show Option.map
                      (fun p => (Char.ofNat (4096 * 0 + 256 * 0 +
                        16 * (c.toNat / 16) + c.toNat % 16) :: p.1, p.2))
                      (readStr f tail) = _
                  have harith : 4096 * 0 + 256 * 0 + 16 * (c.toNat / 16) +
                      c.toNat % 16 = c.toNat := by omega
                  simp only [harith, Char.ofNat_toNat]
                · have hesc : escChar c = [c] := by
                    simp [escChar, hq, hb, h8, ht, hn, hc12, hr, hlt]
                  rw [hesc]
                  simp only [readStr, List.cons_append, List.nil_append]
                  rw [if_neg hq, if_neg hb, if_pos (by omega : 32 ≤ c.toNat)]

-- Every escChar produces at least one character.
theorem escChar_length_pos (c : Char) : 1 ≤ (escChar c).length := by
  rw [escChar]
  split
  · simp
  · split
    · simp
    · split
      · simp
      · split
        · simp
        · split
          · simp
          · split
            · simp
            · split
              · simp
              · split <;> simp

-- The escape of every string is read back as that string: the string
-- serializer and the string reader cancel.
theorem readStr_escChars (t : List Char) : ∀ (fuel : Nat) (rest : List Char),
    (escChars t).length + 1 ≤ fuel →
    readStr fuel (escChars t ++ '"' :: rest) = some (t, rest) := by
  induction t with
  | nil =>
    intro fuel rest h
    match fuel, h with
    | f + 1, _ => rfl
  | cons c t ih =>
    intro fuel rest h
    rw [escChars_cons] at h ⊢
    rw [List.append_assoc]
    rw [List.length_append] at h
    have hc := escChar_length_pos c
    match fuel, h with
    | f + 1, h =>
      rw [readStr_escChar_step, ih f rest (by omega)]
      rfl

theorem skipWs_colon (l : List Char) : skipWs (':' :: l) = ':' :: l :=
  skipWs_cons_not ':' l rfl

theorem skipWs_comma (l : List Char) : skipWs (',' :: l) = ',' :: l :=
  skipWs_cons_not ',' l rfl

theorem skipWs_quote (l : List Char) : skipWs ('"' :: l) = '"' :: l :=
  skipWs_cons_not '"' l rfl

theorem skipWs_rbrace (l : List Char) : skipWs ('}' :: l) = '}' :: l :=
  skipWs_cons_not '}' l rfl

theorem skipWs_rbracket (l : List Char) : skipWs (']' :: l) = ']' :: l :=
  skipWs_cons_not ']' l rfl

theorem skipWs_lbrace (l : List Char) : skipWs ('{' :: l) = '{' :: l :=
  skipWs_cons_not '{' l rfl

-- A serialized `null` value parses as the null value.
theorem parseStep_null (f : Nat) (rest : List Char) :
    parseStep (f + 1) (.val ("null".data ++ rest)) = some (.null, rest) := by
  show (if "ull".data.isPrefixOf ('u' :: 'l' :: 'l' :: rest) then
      some (Json.null, List.drop 3 ('u' :: 'l' :: 'l' :: rest)) else none) =
    some (Json.null, rest)
  rw [show ('u' :: 'l' :: 'l' :: rest) = "ull".data ++ rest from rfl,
    isPrefixOf_self_append, if_pos rfl,
    show (3 : Nat) = ("ull".data).length from rfl, List.drop_left]

-- A serialized string literal parses as that string.
theorem parseStep_str (f : Nat) (t rest : List Char) :
    parseStep (f + 1) (.val (serializeStr t ++ rest)) = some (.str t, rest) := by
  show (readStr (((escChars t ++ ['"']) ++ rest).length + 1)
      ((escChars t ++ ['"']) ++ rest)).map (fun p => (Json.str p.1, p.2)) = _
  rw [List.append_assoc]
  simp only [List.singleton_append]
  rw [readStr_escChars t _ rest (by simp only [List.length_append, List.length_cons]; omega)]
  rfl

-- A serialized field value (null or string literal) parses as its value.
theorem parseStep_field (f : Nat) (o : Option (List Char)) (rest : List Char)
    (hf : 1 ≤ f) :
    parseStep f (.val (serializeField o ++ rest)) = some (optJson o, rest) := by
  match f, hf with
  | f + 1, _ =>
    cases o with
    | none => exact parseStep_null f rest
    | some t => exact parseStep_str f t rest

-- A serialized nonempty member list begins with a quote, so whitespace
-- skipping leaves it alone.
theorem skipWs_serializeMembers (m : List Char × Option (List Char))
    (ms : List (List Char × Option (List Char))) (tail : List Char) :
    skipWs (serializeMembers (m :: ms) ++ tail) =
      serializeMembers (m :: ms) ++ tail := by
  obtain ⟨k, o⟩ := m
  cases ms with
  | nil => exact skipWs_quote _
  | cons a b => exact skipWs_quote _

-- A serialized member list followed by the closing brace parses as the
-- corresponding object fields, in order, appended to the accumulator.
theorem parseStep_members (ms : List (List Char × Option (List Char))) :
    ∀ (fuel : Nat) (acc : List (List Char × Json)) (rest : List Char),
    ms ≠ [] → ms.length + 1 ≤ fuel →
    parseStep fuel (.members (serializeMembers ms ++ '}' :: rest) acc) =
      some (.obj (acc ++ ms.map fun p => (p.1, optJson p.2)), rest) := by
  induction ms with
  | nil => exact fun _ _ _ hne _ => absurd rfl hne
  | cons m ms ih =>
    obtain ⟨k, o⟩ := m
    intro fuel acc rest _ hfuel
    match fuel, hfuel with
    | f + 1, hfuel =>
      cases ms with
      | nil =>
        simp only [serializeMembers, serializeStr, List.append_assoc,
          List.cons_append, List.nil_append]
        simp only [parseStep]
        rw [readStr_escChars k _ _
          (by simp only [List.length_append, List.length_cons]; omega)]
        simp only [skipWs_colon]
        rw [parseStep_field f o _
          (by simp only [List.length_cons, List.length_nil] at hfuel; omega)]
        simp only [skipWs_rbrace]
        simp
      | cons m2 ms2 =>
        simp only [show serializeMembers ((k, o) :: m2 :: ms2) =
            serializeStr k ++ ':' ::
              (serializeField o ++ ',' :: serializeMembers (m2 :: ms2)) from rfl,
          serializeStr, List.append_assoc, List.cons_append, List.nil_append]
        simp only [parseStep]
        rw [readStr_escChars k _ _
          (by simp only [List.length_append, List.length_cons]; omega)]
        simp only [skipWs_colon]
        rw [parseStep_field f o _
          (by simp only [List.length_cons] at hfuel; omega)]
        simp only [skipWs_comma, skipWs_serializeMembers]
        rw [ih f (acc ++ [(k, optJson o)]) rest (by simp) (by
          simp only [List.length_cons] at hfuel ⊢
          omega)]
        simp

-- A serialized object with at least one member parses as that object.
theorem parseStep_obj (ms : List (List Char × Option (List Char))) (f : Nat)
    (rest : List Char) (hne : ms ≠ []) (hb : ms.length + 1 ≤ f) :
    parseStep (f + 1) (.val ('{' :: (serializeMembers ms ++ '}' :: rest))) =
      some (.obj (ms.map fun p => (p.1, optJson p.2)), rest) := by
  obtain ⟨⟨k, o⟩, ms', rfl⟩ : ∃ m ms', ms = m :: ms' := by
    cases ms with
    | nil => exact absurd rfl hne
    | cons m ms' => exact ⟨m, ms', rfl⟩
  cases ms' with
  | nil => exact parseStep_members [(k, o)] f [] rest (by simp) hb
  | cons m2 ms2 => exact parseStep_members ((k, o) :: m2 :: ms2) f [] rest (by simp) hb

-- A serialized entity object parses as its JSON image.
theorem parseStep_entity (e : ExtractedEntity) (f : Nat) (rest : List Char)
    (hf : 9 ≤ f + 1) :
    parseStep (f + 1) (.val (serializeEntity e ++ rest)) = some (entityJson e, rest) := by
  simp only [serializeEntity, List.cons_append, List.append_assoc,
    List.singleton_append, List.nil_append]
  rw [parseStep_obj (entityMembers e) f rest (by simp [entityMembers])
    (by simp [entityMembers]; omega)]
  rfl

-- A serialized entity list followed by the closing bracket parses as the
-- corresponding array elements appended to the accumulator.
theorem parseStep_entityList (es : List ExtractedEntity) : ∀ (e0 : ExtractedEntity)
    (fuel : Nat) (acc : List Json) (rest : List Char),
    es.length + 10 ≤ fuel →
    parseStep fuel (.elems (serializeEntityList (e0 :: es) ++ ']' :: rest) acc) =
      some (.arr (acc ++ (e0 :: es).map entityJson), rest) := by
  induction es with
  | nil =>
    intro e0 fuel acc rest hf
    match fuel, hf with
    | f + 1, hf =>
      simp only [serializeEntityList]
      simp only [parseStep]
      obtain ⟨g, rfl⟩ : ∃ g, f = g + 1 := ⟨f - 1, by omega⟩
      rw [parseStep_entity e0 g (']' :: rest) (by omega)]
      simp only [skipWs_rbracket]
      simp
  | cons e1 es ih =>
    intro e0 fuel acc rest hf
    match fuel, hf with
    | f + 1, hf =>
      simp only [show serializeEntityList (e0 :: e1 :: es) =
          serializeEntity e0 ++ ',' :: serializeEntityList (e1 :: es) from rfl,
        List.append_assoc, List.cons_append]
      simp only [parseStep]
      obtain ⟨g, rfl⟩ : ∃ g, f = g + 1 :=
        ⟨f - 1, by simp only [List.length_cons] at hf; omega⟩
      rw [parseStep_entity e0 g _ (by simp only [List.length_cons] at hf; omega)]
      simp only [skipWs_comma]
      rw [ih e1 (g + 1) (acc ++ [entityJson e0]) rest
        (by simp only [List.length_cons] at hf ⊢; omega)]
      simp

-- A serialized entity array parses as the array of entity images.
theorem parseStep_entityArray (es : List ExtractedEntity) (f : Nat) (rest : List Char)
    (hb : es.length + 11 ≤ f + 1) :
    parseStep (f + 1) (.val ('[' :: (serializeEntityList es ++ ']' :: rest))) =
      some (.arr (es.map entityJson), rest) := by
  cases es with
  | nil => rfl
  | cons e0 es' =>
    cases es' with
    | nil => exact parseStep_entityList [] e0 f [] rest (by simp; omega)
    | cons e1 es2 =>
      exact parseStep_entityList (e1 :: es2) e0 f [] rest
        (by simp only [List.length_cons] at hb ⊢; omega)

-- One object member whose value has already been parsed.
theorem parseStep_member_gen (f : Nat) (k tailv : List Char) (v : Json)
    (rest : List Char) (acc : List (List Char × Json))
    (hv : parseStep f (.val tailv) = some (v, '}' :: rest)) :
    parseStep (f + 1) (.members (serializeStr k ++ ':' :: tailv) acc) =
      some (.obj (acc ++ [(k, v)]), rest) := by
  simp only [serializeStr, List.cons_append, List.append_assoc,
    List.singleton_append, List.nil_append]
  simp only [parseStep]
  rw [readStr_escChars k _ _
    (by simp only [List.length_append, List.length_cons]; omega)]
  simp only [skipWs_colon]
  rw [hv]
  simp only [skipWs_rbrace]

-- The serialized entity list is never shorter than the entity count.
theorem serializeEntityList_length (es : List ExtractedEntity) :
    es.length ≤ (serializeEntityList es).length := by
  induction es with
  | nil => simp [serializeEntityList]
  | cons e es ih =>
    cases es with
    | nil => simp [serializeEntityList, serializeEntity]
    | cons e1 es2 =>
      rw [show serializeEntityList (e :: e1 :: es2) =
          serializeEntity e ++ ',' :: serializeEntityList (e1 :: es2) from rfl]
      simp only [List.length_append, List.length_cons, serializeEntity] at ih ⊢
      omega

-- The serialized envelope parses back to the envelope value: the
-- `JSON.parse` model inverts the `JSON.stringify` model on validator
-- output.
theorem jsonParse_serializeEnvelope (es : List ExtractedEntity) :
    jsonParse (serializeEnvelope es) = some (envelopeJson es) := by
  have hlen : es.length + 14 ≤ (serializeEnvelope es).length + 1 := by
    have h1 := serializeEntityList_length es
    simp only [serializeEnvelope, serializeStr, List.length_cons,
      List.length_append]
    simp only [show (escChars "entities".data).length = 8 from rfl,
      show ("]\x7d".data).length = 2 from rfl]
    omega
  obtain ⟨m, hm⟩ : ∃ m, (serializeEnvelope es).length + 1 = m + 3 ∧
      es.length + 11 ≤ m + 1 := by
    exact ⟨(serializeEnvelope es).length - 2, by omega⟩
  have harr := parseStep_entityArray es m ('}' :: []) hm.2
  have hmem := parseStep_member_gen (m + 1) "entities".data
    ('[' :: (serializeEntityList es ++ ']' :: '}' :: [])) (.arr (es.map entityJson))
    [] [] harr
  have hmain : parseStep ((serializeEnvelope es).length + 1)
      (.val (serializeEnvelope es)) = some (envelopeJson es, ([] : List Char)) := by
    rw [hm.1]
    exact hmem
  rw [jsonParse, parseVal, hmain]
  rfl

-- A normalized field survives the serialize-and-normalize round trip.
theorem normalizeString_optJson (o : Option (List Char))
    (h : normalizedField o = true) :
    normalizeString (some (optJson o)) = o := by
  cases o with
  | none => rfl
  | some t =>
    simp only [normalizedField, Bool.and_eq_true, beq_iff_eq] at h
    obtain ⟨ht, hne'⟩ := h
    have hne : t ≠ [] := by
      intro h0
      subst h0
      simp at hne'
    show normalizeString (some (.str t)) = some t
    simp only [normalizeString]
    rw [ht, if_pos (List.length_pos.mpr hne)]

-- Re-validating the JSON image of a normalized entity gives it back.
theorem validateEntity_entityJson (e : ExtractedEntity)
    (h : normalizedEntity e = true) :
    validateEntity (entityJson e) = e := by
  simp only [normalizedEntity, Bool.and_eq_true] at h
  obtain ⟨⟨⟨⟨⟨⟨h1, h2⟩, h3⟩, h4⟩, h5⟩, h6⟩, h7⟩ := h
  have hfix : validateEntity (entityJson e) =
      { full_name := normalizeString (some (optJson e.full_name))
        email := normalizeString (some (optJson e.email))
        phone_number := normalizeString (some (optJson e.phone_number))
        address := normalizeString (some (optJson e.address))
        organisation := normalizeString (some (optJson e.organisation))
        role_title := normalizeString (some (optJson e.role_title))
        comments := normalizeString (some (optJson e.comments)) } := rfl
  rw [hfix, normalizeString_optJson _ h1, normalizeString_optJson _ h2,
    normalizeString_optJson _ h3, normalizeString_optJson _ h4,
    normalizeString_optJson _ h5, normalizeString_optJson _ h6,
    normalizeString_optJson _ h7]

-- The serialized envelope begins with a brace and ends with one, so the
-- fence-stripping preamble leaves it untouched.
theorem fenceStrip_serializeEnvelope (es : List ExtractedEntity) :
    fenceStrip (serializeEnvelope es) = serializeEnvelope es := by
  have hshape : serializeEnvelope es =
      '{' :: ((serializeStr "entities".data ++ ':' :: '[' ::
        (serializeEntityList es ++ [']'])) ++ ['}']) := by
    simp [serializeEnvelope]
  have htrim : trimChars (serializeEnvelope es) = serializeEnvelope es := by
    rw [hshape]
    exact trimChars_wrap_eq_self '{' '}' rfl rfl _
  have hhead : (serializeEnvelope es).head? ≠ some '`' := by
    rw [hshape]
    simp
  have hlast : (serializeEnvelope es).getLast? ≠ some '`' := by
    rw [hshape, show ('{' :: ((serializeStr "entities".data ++ ':' :: '[' ::
        (serializeEntityList es ++ [']'])) ++ ['}'])) =
      ('{' :: (serializeStr "entities".data ++ ':' :: '[' ::
        (serializeEntityList es ++ [']']))) ++ ['}'] by simp]
    rw [List.getLast?_concat]
    simp
  obtain ⟨h7, h3⟩ := isPrefixOf_backticks_eq_false hhead
  have hsuf := isSuffixOf_backticks_eq_false hlast
  rw [fenceStrip, htrim]
  rw [show stripOpenFence (serializeEnvelope es) = serializeEnvelope es from by
    simp [stripOpenFence, h7, h3]]
  rw [show stripCloseFence (serializeEnvelope es) = serializeEnvelope es from by
    simp [stripCloseFence, hsuf]]
  exact htrim

/-- C9 (amended): re-serializing an entity list as the expected JSON
envelope and parsing it again yields an equal list, for every entity list
whose non-null fields are nonempty and already trimmed.  Validator outputs
built from string, scalar and null field values always satisfy this; the
counterexample shows that an array-valued field may not. -/
theorem claude_revalidation_idempotent (es : List ExtractedEntity)
    (hnorm : ∀ e ∈ es, normalizedEntity e = true) :
    parseExtractionResponse (serializeEnvelope es) = .ok es := by
  rw [parseExtractionResponse, fenceStrip_serializeEnvelope,
    jsonParse_serializeEnvelope]
  show Except.ok (validateEntities (es.map entityJson)) = Except.ok es
  rw [validateEntities, List.map_map]
  congr 1
  induction es with
  | nil => rfl
  | cons e es ih =>
    rw [List.map_cons]
    rw [show (validateEntity ∘ entityJson) e = validateEntity (entityJson e) from rfl,
      validateEntity_entityJson e (hnorm e (by simp)),
      ih (fun x hx => hnorm x (by simp [hx]))]

set_option maxRecDepth 16384 in
/-- Witness for C9's amended claim: a concrete normalized entity list
survives the round trip. -/
theorem claude_revalidation_idempotent_witness :
    parseExtractionResponse (serializeEnvelope
      [createEmptyEntity,
       { createEmptyEntity with full_name := some "Jane Doe".data,
                                email := some "jane@x.com".data }]) =
      .ok [createEmptyEntity,
       { createEmptyEntity with full_name := some "Jane Doe".data,
                                email := some "jane@x.com".data }] :=
  claude_revalidation_idempotent _ (by decide)

set_option maxRecDepth 16384 in
/-- C9 counterexample: the claim fails on the code as stated.  An entity
element whose `full_name` is the empty array normalizes to the empty
string — `String([])` — because the non-string branch of `normalizeString`
does not re-trim; re-serializing and re-parsing that output turns the
empty string into null, so the lists differ. -/
theorem claude_revalidation_counterexample :
    validateEntities [.obj [("full_name".data, .arr [])]] =
      [{ createEmptyEntity with full_name := some [] }] ∧
    parseExtractionResponse (serializeEnvelope
        [{ createEmptyEntity with full_name := some [] }]) =
      .ok [createEmptyEntity] ∧
    ([createEmptyEntity] : List ExtractedEntity) ≠
      [{ createEmptyEntity with full_name := some [] }] := by
  refine ⟨?_, by decide, by decide⟩
  simp [validateEntities, validateEntity, isObjectLike, jsGet, lookupLast,
    normalizeString, jsToString, jsArrString, createEmptyEntity, trimChars]

end DocExtractor
